import Mathlib

/-!
Verification of the embedding layer of the stock_ai_system repository:
the FAISS-backed vector store (vector_store.py), the RAG text chunker
(rag_pipeline.py) and the AI-model response generation (search_engine.py).
Python dictionaries are modelled as association lists with unique keys
maintained by insertion; Python strings as lists of characters; numpy
float32 vectors as lists of integers (the claims under study do not
depend on floating-point rounding); the FAISS flat L2 index as the plain
list of stored rows with exact top-k selection by squared L2 distance.
Fallible operations return Except values; loops that may not terminate
are given explicit fuel, with result none meaning the loop is still
running after that many iterations (so a result of none for every fuel
is non-termination).
-/

/-! ## Python dictionaries as association lists -/

/-- Lookup in a Python-style dict, first binding wins. -/
def dictLookup {κ β : Type} [DecidableEq κ] : List (κ × β) → κ → Option β
  | [], _ => none
  | (k2, v2) :: rest, k => if k2 = k then some v2 else dictLookup rest k

/-- Python dict assignment: overwrite the value in place when the key is
present, otherwise append the new binding at the end (insertion order). -/
def dictInsert {κ β : Type} [DecidableEq κ] : List (κ × β) → κ → β → List (κ × β)
  | [], k, v => [(k, v)]
  | (k2, v2) :: rest, k, v =>
    if k2 = k then (k2, v) :: rest else (k2, v2) :: dictInsert rest k v

/-- Python del: remove every binding of the key. -/
def dictRemove {κ β : Type} [DecidableEq κ] (d : List (κ × β)) (k : κ) : List (κ × β) :=
  d.filter (fun p => p.1 ≠ k)

/-- Python membership test k in d. -/
def dictContains {κ β : Type} [DecidableEq κ] (d : List (κ × β)) (k : κ) : Bool :=
  (dictLookup d k).isSome

/-- Metadata payload: a Python dict with string keys and string values. -/
abbrev MDict := List (String × String)

deriving instance DecidableEq for Except

/-! ## Python string primitives used by the chunker -/

/-- Normalisation of a Python slice index against a length: a negative
index counts from the end (clamped at 0 by truncated subtraction), a
non-negative index is clamped at the length. -/
def pyIdx (len : Nat) (i : Int) : Nat :=
  if i < 0 then len - (-i).toNat else min i.toNat len

/-- Python slice text[a:b]. -/
def pySlice (l : List Char) (a b : Int) : List Char :=
  (l.take (pyIdx l.length b)).drop (pyIdx l.length a)

/-- Python text.rfind(c, a, b): the largest absolute index j with
a <= j < b (slice-normalised) whose character is c, if any. -/
def rfindChar (l : List Char) (c : Char) (a b : Int) : Option Nat :=
  ((List.range l.length).filter
    (fun j => decide (l.getD j ' ' = c) &&
      decide (pyIdx l.length a ≤ j) && decide (j < pyIdx l.length b))).getLast?

/-! ## StockMarketRAG text chunker (rag_pipeline.py) -/

/-- The chunking configuration held by StockMarketRAG; the constructor
stores chunk_size and chunk_overlap without any validation. -/
structure StockMarketRAG where
  chunk_size : Nat
  chunk_overlap : Nat
deriving DecidableEq, Repr

/-- StockMarketRAG.__init__: stores the two chunking parameters verbatim;
there is no validation and no error path. -/
def StockMarketRAG.construct (chunk_size chunk_overlap : Nat) : StockMarketRAG :=
  { chunk_size := chunk_size, chunk_overlap := chunk_overlap }

/-- One window end computation of _chunk_text: end = min(start+chunk_size,
len(text)); when that falls short of the end of the text, move back to just
after the last period found in [start, end) provided it lies beyond
start + chunk_size // 2. -/
def chunkEnd (cfg : StockMarketRAG) (text : List Char) (start : Int) : Int :=
  if min (start + (cfg.chunk_size : Int)) (text.length : Int) < (text.length : Int) then
    match rfindChar text '.' start (min (start + (cfg.chunk_size : Int)) (text.length : Int)) with
    | some lp =>
      if start + ((cfg.chunk_size / 2 : Nat) : Int) < (lp : Int) then (lp : Int) + 1
      else min (start + (cfg.chunk_size : Int)) (text.length : Int)
    | none => min (start + (cfg.chunk_size : Int)) (text.length : Int)
  else min (start + (cfg.chunk_size : Int)) (text.length : Int)

/-- The while loop of _chunk_text, with explicit fuel; none means the loop
has not finished within the given number of iterations. -/
def chunkLoop (cfg : StockMarketRAG) (text : List Char) :
    Nat → Int → List (List Char) → Option (List (List Char))
  | 0, _, _ => none
  | fuel + 1, start, chunks =>
    if start < (text.length : Int) then
      let e := chunkEnd cfg text start
      chunkLoop cfg text fuel (e - (cfg.chunk_overlap : Int)) (chunks ++ [pySlice text start e])
    else
      some chunks

/-- StockMarketRAG._chunk_text: empty text returns the empty list at once,
otherwise run the chunking loop from start = 0. -/
def StockMarketRAG.chunk_text (cfg : StockMarketRAG) (text : List Char) (fuel : Nat) :
    Option (List (List Char)) :=
  if text.isEmpty then some [] else chunkLoop cfg text fuel 0 []

/-- The configuration of the specification scenario: max_size 1000,
overlap 100. -/
def cfg1000x100 : StockMarketRAG := StockMarketRAG.construct 1000 100

/-- A 2500-character text without sentence terminators. -/
def text2500 : List Char := List.replicate 2500 'a'

/-- A configuration with overlap equal to max_size. -/
def cfgOverlapFull : StockMarketRAG := StockMarketRAG.construct 1000 1000

/-- A two-character text. -/
def textAB : List Char := ['a', 'b']

/-! ## Generic insertion sort (used to model exact nearest-neighbour
selection and index-ordered result lists) -/

/-- Insert an element into a list sorted by the boolean relation le,
keeping earlier elements first on ties (stable). -/
def insertLe {α : Type} (le : α → α → Bool) (x : α) : List α → List α
  | [] => [x]
  | y :: ys => if le x y then x :: y :: ys else y :: insertLe le x ys

/-- Stable insertion sort by a boolean relation. -/
def sortLe {α : Type} (le : α → α → Bool) : List α → List α
  | [] => []
  | x :: xs => insertLe le x (sortLe le xs)

/-! ## FaissVectorStore (vector_store.py) -/

/-- Squared L2 distance between two rows, as FAISS IndexFlatL2 reports. -/
def sqDist (a b : List Int) : Int :=
  (List.zip a b).foldl (fun acc p => acc + (p.1 - p.2) * (p.1 - p.2)) 0

/-- Comparison of two physical index positions by (distance to the query,
position), the order in which an exact flat L2 search ranks them. -/
def faissKeyLe (vecs : List (List Int)) (q : List Int) (i j : Nat) : Bool :=
  decide (sqDist q (vecs.getD i []) < sqDist q (vecs.getD j [])) ||
    (decide (sqDist q (vecs.getD i []) = sqDist q (vecs.getD j [])) && decide (i ≤ j))

/-- The (at most top_k) physical positions returned by an exact flat L2
search; FAISS pads with -1 when fewer than top_k rows exist, and the
caller skips the padding, so the padding is simply absent here. -/
def faissTopkIndices (vecs : List (List Int)) (q : List Int) (top_k : Nat) : List Nat :=
  (sortLe (faissKeyLe vecs q) (List.range vecs.length)).take top_k

/-- One search hit: the dict with keys id, score and metadata built by
FaissVectorStore.search and Neo4jVectorStore.search. -/
structure SearchResult where
  id : String
  score : ℚ
  metadata : MDict
deriving DecidableEq, Repr

/-- The dict returned by get_vector: the FAISS implementation returns only
the keys id and metadata, the field vector being none to model the absent key;
the Neo4j implementation also returns the embedding. -/
structure VectorRecord where
  id : String
  vector : Option (List Int)
  metadata : MDict
deriving DecidableEq, Repr

/-- The distinct exception families raised inside add_vectors before any
state is mutated: the explicit ValueError on mismatched list lengths, the
ValueError raised by np.vstack on an empty batch, and the wrong-dimension
failure raised by np.vstack or faiss index.add. -/
inductive AddError
  | lengthMismatch
  | emptyBatch
  | dimensionMismatch
deriving DecidableEq, Repr

/-- The wrong-dimension failure raised by faiss index.search on a query of
the wrong dimension. -/
inductive SearchError
  | dimensionMismatch
deriving DecidableEq, Repr

/-- The in-memory and on-disk state of a FaissVectorStore: the fixed
dimension, the physical rows of the FAISS index (ntotal is their number),
the id to position dict, the id to metadata dict, and the contents of the
two persisted snapshot files metadata.json and id_map.pickle. -/
structure FaissVectorStore where
  dimension : Nat
  indexVecs : List (List Int)
  id_to_index : List (String × Nat)
  metadata : List (String × MDict)
  persistedMetadata : List (String × MDict)
  persistedIdMap : List (String × Nat)
deriving DecidableEq, Repr

/-- FAISS index.ntotal. -/
def FaissVectorStore.ntotal (s : FaissVectorStore) : Nat := s.indexVecs.length

/-- The number of live entries: ids present in the id to position dict. -/
def FaissVectorStore.liveCount (s : FaissVectorStore) : Nat := s.id_to_index.length

/-- A freshly initialised store over an empty directory: empty index,
empty dicts, empty snapshot files. -/
def faissNew (dimension : Nat) : FaissVectorStore :=
  { dimension := dimension, indexVecs := [], id_to_index := [], metadata := [],
    persistedMetadata := [], persistedIdMap := [] }

/-- FaissVectorStore.add_vectors. The uuid4-generated ids and the
datetime.now() timestamp are inputs (one id per vector in the source).
The validation and the index insertion happen before any dict is touched,
so every error leaves the store exactly as it was; on success the id and
metadata dicts are updated (each metadata dict is copied and the copy gets
the timestamp key) and both snapshot files are rewritten. -/
def FaissVectorStore.add_vectors (s : FaissVectorStore) (vectors : List (List Int))
    (metadata : List MDict) (vector_ids : List String) (now : String) :
    FaissVectorStore × Except AddError (List String) :=
  if vectors.length ≠ metadata.length then (s, .error .lengthMismatch)
  else if vectors.isEmpty then (s, .error .emptyBatch)
  else if vectors.any (fun v => v.length ≠ s.dimension) then (s, .error .dimensionMismatch)
  else
    let start_idx := s.indexVecs.length
    let id_to_index2 := List.foldl (fun m p => dictInsert m p.1 p.2) s.id_to_index
      (List.zip vector_ids (List.range' start_idx vectors.length))
    let metadata2 := List.foldl (fun m p => dictInsert m p.1 (dictInsert p.2 "timestamp" now))
      s.metadata (List.zip vector_ids metadata)
    ({ s with indexVecs := s.indexVecs ++ vectors, id_to_index := id_to_index2,
              metadata := metadata2, persistedMetadata := metadata2,
              persistedIdMap := id_to_index2 }, .ok vector_ids)

/-- FaissVectorStore.search: rank all physical rows by distance, take the
top_k positions, then keep only positions that still map back to an id
through the inverted id dict (tombstoned rows map to nothing and are
skipped, as is an empty id string); the score is 1 / (1 + distance). -/
def FaissVectorStore.search (s : FaissVectorStore) (query_vector : List Int) (top_k : Nat) :
    Except SearchError (List SearchResult) :=
  if query_vector.length ≠ s.dimension then .error .dimensionMismatch
  else
    let index_to_id := List.foldl (fun m p => dictInsert m p.2 p.1)
      ([] : List (Nat × String)) s.id_to_index
    .ok ((faissTopkIndices s.indexVecs query_vector top_k).filterMap (fun idx =>
      if idx < s.indexVecs.length then
        match dictLookup index_to_id idx with
        | some vid =>
          if vid = "" then none
          else some { id := vid,
                      score := Rat.divInt 1 (1 + sqDist query_vector (s.indexVecs.getD idx [])),
                      metadata := (dictLookup s.metadata vid).getD [] }
        | none => none
      else none))

/-- FaissVectorStore.delete_vector: unknown ids report false; otherwise
the id is removed from the metadata and id dicts and both snapshots are
rewritten, while the physical row stays in the FAISS index (tombstone). -/
def FaissVectorStore.delete_vector (s : FaissVectorStore) (vector_id : String) :
    FaissVectorStore × Bool :=
  if dictContains s.id_to_index vector_id then
    let metadata2 := dictRemove s.metadata vector_id
    let id_to_index2 := dictRemove s.id_to_index vector_id
    ({ s with metadata := metadata2, id_to_index := id_to_index2,
              persistedMetadata := metadata2, persistedIdMap := id_to_index2 }, true)
  else (s, false)

/-- FaissVectorStore.get_vector: absent for unknown or tombstoned ids;
otherwise returns the dict with only the id and the metadata — the source
cannot read the vector back from FAISS and returns no vector key. -/
def FaissVectorStore.get_vector (s : FaissVectorStore) (vector_id : String) :
    Option VectorRecord :=
  if dictContains s.id_to_index vector_id then
    some { id := vector_id, vector := none,
           metadata := (dictLookup s.metadata vector_id).getD [] }
  else none

/-- The durably persisted state of the store: the contents of
metadata.json and id_map.pickle, the only files _save_metadata and
_save_id_map ever write. -/
def FaissVectorStore.persistedState (s : FaissVectorStore) :
    List (String × MDict) × List (String × Nat) :=
  (s.persistedMetadata, s.persistedIdMap)

/-! ## Operation sequences over a FaissVectorStore -/

/-- One mutating call against the store. -/
inductive StoreOp
  | add (vectors : List (List Int)) (metadata : List MDict) (vector_ids : List String) (now : String)
  | del (vector_id : String)

/-- Apply one operation, keeping the resulting store. -/
def applyOp (s : FaissVectorStore) : StoreOp → FaissVectorStore
  | .add v m ids now => (s.add_vectors v m ids now).1
  | .del vid => (s.delete_vector vid).1

/-- Run a sequence of store operations from a starting state. -/
def runOps (s : FaissVectorStore) (ops : List StoreOp) : FaissVectorStore :=
  ops.foldl applyOp s

/-- The id dict is a well-formed injective position assignment bounded by
n: keys are distinct, every position is below n, and no two bindings share
a position. -/
def GoodMap (d : List (String × Nat)) (n : Nat) : Prop :=
  (d.map Prod.fst).Nodup ∧ (∀ p ∈ d, p.2 < n) ∧
    (∀ p ∈ d, ∀ q ∈ d, p.2 = q.2 → p = q)

/-- Structural well-formedness of the live id assignment used as a
hypothesis about a store: distinct nonempty ids, injective positions,
positions below ntotal. -/
abbrev WellFormedIds (s : FaissVectorStore) : Prop :=
  (s.id_to_index.map Prod.fst).Nodup ∧ (∀ p ∈ s.id_to_index, p.1 ≠ "") ∧
    (∀ p ∈ s.id_to_index, p.2 < s.ntotal) ∧
    (∀ p ∈ s.id_to_index, ∀ q ∈ s.id_to_index, p.2 = q.2 → p = q)

/-- No tombstones: every physical row of the index is still owned by a
live id. -/
abbrev NoTombstones (s : FaissVectorStore) : Prop :=
  ∀ idx < s.ntotal, ∃ p ∈ s.id_to_index, p.2 = idx

/-! ## Neo4jVectorStore (vector_store.py) -/

/-- The graph state relevant to the vector operations: one Vector node
per id, holding the embedding and the (json round-tripped) metadata. The
database itself lives outside the process; its Cypher statements are modelled by their
documented effect on this node set. -/
structure Neo4jVectorStore where
  nodes : List (String × (List Int × MDict))
deriving DecidableEq, Repr

/-- Descending cosine-similarity order used by db.index.vector.queryNodes;
the similarity function of the remote index is a parameter. -/
def neo4jNodeLe (sim : List Int → ℚ) (p q : String × (List Int × MDict)) : Bool :=
  decide (sim q.2.1 ≤ sim p.2.1)

/-- Neo4jVectorStore.search: queryNodes yields the top_k existing Vector
nodes by similarity, each reported with its id, score and metadata. -/
def Neo4jVectorStore.search (db : Neo4jVectorStore) (sim : List Int → ℚ) (top_k : Nat) :
    List SearchResult :=
  ((sortLe (neo4jNodeLe sim) db.nodes).take top_k).map
    (fun p => { id := p.1, score := sim p.2.1, metadata := p.2.2 })

/-- Neo4jVectorStore.delete_vector: MATCH + DETACH DELETE removes the
node; the reported boolean is whether a node was deleted. -/
def Neo4jVectorStore.delete_vector (db : Neo4jVectorStore) (vector_id : String) :
    Neo4jVectorStore × Bool :=
  if dictContains db.nodes vector_id then
    ({ nodes := dictRemove db.nodes vector_id }, true)
  else (db, false)

/-- Neo4jVectorStore.get_vector: returns id, embedding and metadata of the
matched node, or absent. -/
def Neo4jVectorStore.get_vector (db : Neo4jVectorStore) (vector_id : String) :
    Option VectorRecord :=
  match dictLookup db.nodes vector_id with
  | some e => some { id := vector_id, vector := some e.1, metadata := e.2 }
  | none => none

/-! ## Heap model of the metadata-copy loops inside add_vectors

The caller passes a list of mutable metadata dict objects. To make
aliasing and in-place mutation expressible, dict objects live on a heap
addressed by allocation order; the caller argument is a list of
references into that heap. The source line meta = metadata[i].copy()
allocates a fresh object holding a snapshot of the referenced dict, and
the following meta[timestamp] = ... writes through the fresh reference
only. -/

/-- The object heap: cell r of the list is the dict object with
reference r; allocation appends. -/
abbrev Heap := List MDict

/-- Dereference (a dangling reference reads the empty dict). -/
def heapRead (h : Heap) (r : Nat) : MDict := h.getD r []

/-- In-place mutation of the object at reference r. -/
def heapWrite (h : Heap) (r : Nat) (d : MDict) : Heap := h.set r d

/-- Allocation of a new object, returning its reference. -/
def heapAlloc (h : Heap) (d : MDict) : Heap × Nat := (h ++ [d], h.length)

/-- The loop body of FaissVectorStore.add_vectors over the generated ids
(vector_store.py lines 209-220), at heap level: items carries, for each
entry, the generated id, the assigned index position and the reference to
the caller-owned metadata dict. Each iteration assigns the position,
copies the referenced dict into a fresh object, writes the timestamp into
the fresh object, and stores that object. -/
def FaissVectorStore.addLoopHeap (h : Heap) (id_to_index : List (String × Nat))
    (metadataStore : List (String × Nat)) (items : List (String × Nat × Nat))
    (now : String) : Heap × List (String × Nat) × List (String × Nat) :=
  match items with
  | [] => (h, id_to_index, metadataStore)
  | (vid, idx, r) :: rest =>
    let id_to_index2 := dictInsert id_to_index vid idx
    let alloc := heapAlloc h (heapRead h r)
    let h2 := heapWrite alloc.1 alloc.2 (dictInsert (heapRead alloc.1 alloc.2) "timestamp" now)
    FaissVectorStore.addLoopHeap h2 id_to_index2 (dictInsert metadataStore vid alloc.2) rest now

/-- The loop body of Neo4jVectorStore.add_vectors (vector_store.py lines
444-456), at heap level: each iteration copies the caller-owned metadata
dict, writes the timestamp into the copy, and creates the Vector node
with the serialised copy. -/
def Neo4jVectorStore.addLoopHeap (h : Heap) (db : Neo4jVectorStore)
    (items : List (String × List Int × Nat)) (now : String) : Heap × Neo4jVectorStore :=
  match items with
  | [] => (h, db)
  | (vid, vec, r) :: rest =>
    let alloc := heapAlloc h (heapRead h r)
    let h2 := heapWrite alloc.1 alloc.2 (dictInsert (heapRead alloc.1 alloc.2) "timestamp" now)
    Neo4jVectorStore.addLoopHeap h2 { nodes := dictInsert db.nodes vid (vec, heapRead h2 alloc.2) }
      rest now

/-! ## Response generation (search_engine.py)

The HTTP round trip (requests.post, raise_for_status, json decoding and
field extraction) is the provider oracle: an Except value indexed by the
payload the method builds. The whole body sits in one try block whose
except branch returns an error-describing string instead of re-raising. -/

/-- The common system instruction prepended by every model. -/
def systemPrompt : String :=
  "당신은 주식 시장 분석 전문가입니다. 제공된 정보를 바탕으로 정확하고 유용한 분석과 통찰을 제공해주세요."

/-- The fixed first part of the degraded answer built by the except branches. -/
def degradedHead : String := "응답 생성 중 오류가 발생했습니다: "

/-- The chat payload OpenAIModel.generate_response posts: system message
plus user prompt. -/
def openaiPayload (prompt : String) : String := systemPrompt ++ "\n" ++ prompt

/-- OpenAIModel.generate_response: on success the extracted message
content, on any failure inside the try block the degraded answer built
from str(e). -/
def OpenAIModel.generate_response (prompt : String)
    (api : String → Except String String) : String :=
  match api (openaiPayload prompt) with
  | .ok content => content
  | .error e => degradedHead ++ e

/-- The payload LocalAIModel.generate_response posts. -/
def localPayload (prompt : String) : String := systemPrompt ++ "\n\n" ++ prompt

/-- LocalAIModel.generate_response: on success the first of the keys
text, response, output found in the decoded json dict (falling back to
the str rendering of the whole dict), on any failure the degraded
answer. -/
def LocalAIModel.generate_response (prompt : String)
    (api : String → Except String MDict) (pyStr : MDict → String) : String :=
  match api (localPayload prompt) with
  | .error e => degradedHead ++ e
  | .ok result =>
    match dictLookup result "text" with
    | some t => t
    | none =>
      match dictLookup result "response" with
      | some t => t
      | none =>
        match dictLookup result "output" with
        | some t => t
        | none => pyStr result

/-! ## Concrete states used by counterexamples and witnesses -/

/-- A store of dimension 2 holding one vector addded as [1, 2] with
metadata [(k, x)]. -/
def storeC1 : FaissVectorStore :=
  ((faissNew 2).add_vectors [[1, 2]] [[("k", "x")]] ["id1"] "T").1

/-- The same ingestion with a different vector [7, 9]. -/
def storeC2b : FaissVectorStore :=
  ((faissNew 2).add_vectors [[7, 9]] [[("k", "x")]] ["id1"] "T").1

/-- Dimension-1 store with rows [0], [1], [2] under ids a, b, c. -/
def storeABC : FaissVectorStore :=
  ((faissNew 1).add_vectors [[0], [1], [2]] [[], [], []] ["a", "b", "c"] "T").1

/-- storeABC with a and b deleted: two tombstoned rows, one live id c. -/
def storeTomb : FaissVectorStore :=
  ((storeABC.delete_vector "a").1.delete_vector "b").1

/-- Dimension-1 store with two live entries and no tombstones. -/
def storeLive2 : FaissVectorStore :=
  ((faissNew 1).add_vectors [[0], [5]] [[], []] ["a", "b"] "T").1

/-- A Neo4j state with two nodes. -/
def neoAB : Neo4jVectorStore :=
  { nodes := [("a", ([0], [("k", "x")])), ("b", ([5], [("k", "y")]))] }

/-- The result list of searching storeLive2 for query [7] with top_k 3. -/
def rsLive2 : List SearchResult :=
  [{ id := "b", score := Rat.divInt 1 5, metadata := [("timestamp", "T")] },
   { id := "a", score := Rat.divInt 1 50, metadata := [("timestamp", "T")] }]

/-! # Theorems -/

/-! ## List helper lemmas -/

theorem filter_eq_nil_of_all_false {α : Type} (p : α → Bool) :
    ∀ l : List α, (∀ x ∈ l, p x = false) → l.filter p = []
  | [], _ => rfl
  | x :: xs, h => by
    have hx := h x (by simp)
    simp only [List.filter, hx]
    exact filter_eq_nil_of_all_false p xs (fun y hy => h y (List.mem_cons_of_mem x hy))

/-! ## Chunker lemmas -/

theorem text2500_getD_ne (j : Nat) : text2500.getD j ' ' ≠ '.' := by
  unfold text2500
  induction (2500 : Nat) generalizing j with
  | zero => simp [List.getD]
  | succ n ih =>
    cases j with
    | zero => simp [List.replicate_succ]
    | succ j2 => simpa [List.replicate_succ] using ih j2

theorem rfindChar_text2500_none (a b : Int) : rfindChar text2500 '.' a b = none := by
  unfold rfindChar
  rw [filter_eq_nil_of_all_false]
  · rfl
  · intro j _
    have hA : decide (text2500.getD j ' ' = '.') = false :=
      decide_eq_false (text2500_getD_ne j)
    simp only [hA, Bool.false_and]

theorem text2500_length : ((text2500.length : Nat) : Int) = 2500 := by
  unfold text2500
  rw [List.length_replicate]
  norm_num

theorem chunkEnd_text2500 (start : Int) :
    chunkEnd cfg1000x100 text2500 start = min (start + 1000) 2500 := by
  unfold chunkEnd
  rw [text2500_length, rfindChar_text2500_none]
  simp [cfg1000x100, StockMarketRAG.construct]

theorem chunkLoop_step (cfg : StockMarketRAG) (text : List Char) (fuel : Nat) (start : Int)
    (chunks : List (List Char)) (h : start < (text.length : Int)) :
    chunkLoop cfg text (fuel + 1) start chunks =
      chunkLoop cfg text fuel (chunkEnd cfg text start - (cfg.chunk_overlap : Int))
        (chunks ++ [pySlice text start (chunkEnd cfg text start)]) := by
  simp [chunkLoop, h]

theorem chunkLoop_stuck2400 : ∀ (fuel : Nat) (chunks : List (List Char)),
    chunkLoop cfg1000x100 text2500 fuel 2400 chunks = none := by
  intro fuel
  induction fuel with
  | zero => intro chunks; rfl
  | succ f ih =>
    intro chunks
    rw [chunkLoop_step _ _ _ _ _ (by rw [text2500_length]; norm_num)]
    rw [chunkEnd_text2500]
    norm_num [cfg1000x100, StockMarketRAG.construct]
    exact ih _

theorem chunkLoop_stuck1800 (fuel : Nat) (chunks : List (List Char)) :
    chunkLoop cfg1000x100 text2500 fuel 1800 chunks = none := by
  cases fuel with
  | zero => rfl
  | succ f =>
    rw [chunkLoop_step _ _ _ _ _ (by rw [text2500_length]; norm_num)]
    rw [chunkEnd_text2500]
    norm_num [cfg1000x100, StockMarketRAG.construct]
    exact chunkLoop_stuck2400 f _

theorem chunkLoop_stuck900 (fuel : Nat) (chunks : List (List Char)) :
    chunkLoop cfg1000x100 text2500 fuel 900 chunks = none := by
  cases fuel with
  | zero => rfl
  | succ f =>
    rw [chunkLoop_step _ _ _ _ _ (by rw [text2500_length]; norm_num)]
    rw [chunkEnd_text2500]
    norm_num [cfg1000x100, StockMarketRAG.construct]
    exact chunkLoop_stuck1800 f _

/-- Claim C3: refuted on the code. With max_size 1000 and overlap 100 —
the exact configuration of the specification scenario — the chunking loop
on a 2500-character text never terminates: after emitting the windows
starting at 0, 900 and 1800 the loop reaches start 2400, where the window
end equals the text length and the next start is again 2400, for every
amount of fuel. The specification instead requires termination with
exactly 3 chunks. -/
theorem chunk_text_2500_diverges (fuel : Nat) :
    StockMarketRAG.chunk_text cfg1000x100 text2500 fuel = none := by
  have hne : text2500.isEmpty = false := by simp [text2500]
  unfold StockMarketRAG.chunk_text
  rw [hne]
  simp only [Bool.false_eq_true, if_false]
  cases fuel with
  | zero => rfl
  | succ f =>
    rw [chunkLoop_step _ _ _ _ _ (by rw [text2500_length]; norm_num)]
    rw [chunkEnd_text2500]
    norm_num [cfg1000x100, StockMarketRAG.construct]
    exact chunkLoop_stuck900 f _

theorem chunkLoop_stuckAB (fuel : Nat) (chunks : List (List Char)) :
    chunkLoop cfgOverlapFull textAB fuel (-998) chunks = none := by
  induction fuel generalizing chunks with
  | zero => rfl
  | succ f ih =>
    rw [chunkLoop_step _ _ _ _ _ (by norm_num [textAB])]
    rw [show chunkEnd cfgOverlapFull textAB (-998) = 2 from by decide]
    norm_num [cfgOverlapFull, StockMarketRAG.construct]
    exact ih _

/-- Claim C7: refuted on the code. A chunker configured with overlap equal
to max_size is not rejected anywhere: the constructor stores any pair of
parameters verbatim with no validation and no error path, the first chunk
call on empty text returns the empty sequence normally, and the first
chunk call on a non-empty text never terminates — no ConfigError is ever
raised. -/
theorem overlap_ge_max_size_not_rejected :
    (∀ cs co : Nat, StockMarketRAG.construct cs co =
      { chunk_size := cs, chunk_overlap := co }) ∧
    (∀ fuel : Nat, StockMarketRAG.chunk_text cfgOverlapFull [] fuel = some []) ∧
    (∀ fuel : Nat, StockMarketRAG.chunk_text cfgOverlapFull textAB fuel = none) := by
  refine ⟨fun cs co => rfl, fun fuel => rfl, fun fuel => ?_⟩
  have hne : textAB.isEmpty = false := rfl
  unfold StockMarketRAG.chunk_text
  rw [hne]
  simp only [Bool.false_eq_true, if_false]
  cases fuel with
  | zero => rfl
  | succ f =>
    rw [chunkLoop_step _ _ _ _ _ (by norm_num [textAB])]
    rw [show chunkEnd cfgOverlapFull textAB 0 = 2 from by decide]
    norm_num [cfgOverlapFull, StockMarketRAG.construct]
    exact chunkLoop_stuckAB f _

/-! ## Dictionary lemmas -/

theorem dictLookup_dictInsert_self {κ β : Type} [DecidableEq κ] (k : κ) (v : β) :
    ∀ d : List (κ × β), dictLookup (dictInsert d k v) k = some v
  | [] => by simp [dictInsert, dictLookup]
  | (k2, v2) :: rest => by
    by_cases h : k2 = k
    · simp [dictInsert, dictLookup, h]
    · simp only [dictInsert, dictLookup, if_neg h]
      exact dictLookup_dictInsert_self k v rest

theorem dictLookup_dictInsert_ne {κ β : Type} [DecidableEq κ] (k k3 : κ) (v : β)
    (hk : k ≠ k3) : ∀ d : List (κ × β), dictLookup (dictInsert d k v) k3 = dictLookup d k3
  | [] => by simp [dictInsert, dictLookup, hk]
  | (k2, v2) :: rest => by
    by_cases h : k2 = k
    · subst h
      simp [dictInsert, dictLookup, hk]
    · simp only [dictInsert, dictLookup, if_neg h]
      by_cases h3 : k2 = k3
      · simp [h3]
      · simp only [if_neg h3]
        exact dictLookup_dictInsert_ne k k3 v hk rest

theorem dictLookup_mem {κ β : Type} [DecidableEq κ] (k : κ) (v : β) :
    ∀ d : List (κ × β), dictLookup d k = some v → (k, v) ∈ d
  | [], h => by simp [dictLookup] at h
  | (k2, v2) :: rest, h => by
    by_cases hk : k2 = k
    · subst hk
      simp [dictLookup] at h
      subst h
      exact List.mem_cons_self _ _
    · simp only [dictLookup, if_neg hk] at h
      exact List.mem_cons_of_mem _ (dictLookup_mem k v rest h)

theorem mem_dictInsert {κ β : Type} [DecidableEq κ] (p : κ × β) (k : κ) (v : β) :
    ∀ d : List (κ × β), p ∈ dictInsert d k v → p = (k, v) ∨ p ∈ d
  | [], h => by simpa [dictInsert] using h
  | (k2, v2) :: rest, h => by
    by_cases hk : k2 = k
    · subst hk
      simp [dictInsert] at h
      rcases h with h1 | h1
      · exact Or.inl (by simp [h1])
      · exact Or.inr (List.mem_cons_of_mem _ h1)
    · simp only [dictInsert, if_neg hk, List.mem_cons] at h
      rcases h with h1 | h1
      · exact Or.inr (by simp [h1])
      · rcases mem_dictInsert p k v rest h1 with h2 | h2
        · exact Or.inl h2
        · exact Or.inr (List.mem_cons_of_mem _ h2)

theorem keys_dictInsert {κ β : Type} [DecidableEq κ] (k : κ) (v : β) :
    ∀ d : List (κ × β), (dictInsert d k v).map Prod.fst =
      if k ∈ d.map Prod.fst then d.map Prod.fst else d.map Prod.fst ++ [k]
  | [] => by simp [dictInsert]
  | (k2, v2) :: rest => by
    by_cases hk : k2 = k
    · subst hk
      simp [dictInsert]
    · simp only [dictInsert, if_neg hk, List.map_cons, keys_dictInsert k v rest]
      by_cases hmem : k ∈ rest.map Prod.fst
      · simp [hmem, Ne.symm hk]
      · simp [hmem, Ne.symm hk]

theorem mem_dictRemove {κ β : Type} [DecidableEq κ] (p : κ × β) (k : κ) (d : List (κ × β))
    (h : p ∈ dictRemove d k) : p ∈ d ∧ p.1 ≠ k := by
  unfold dictRemove at h
  have h2 := List.mem_filter.mp h
  exact ⟨h2.1, by simpa using h2.2⟩

theorem dictLookup_dictRemove_self {κ β : Type} [DecidableEq κ] (k : κ) :
    ∀ d : List (κ × β), dictLookup (dictRemove d k) k = none
  | [] => rfl
  | (k2, v2) :: rest => by
    by_cases hk : k2 = k
    · subst hk
      have h2 : dictRemove ((k2, v2) :: rest) k2 = dictRemove rest k2 := by
        simp [dictRemove, List.filter_cons]
      rw [h2]
      exact dictLookup_dictRemove_self k2 rest
    · have h2 : dictRemove ((k2, v2) :: rest) k = (k2, v2) :: dictRemove rest k := by
        simp [dictRemove, List.filter_cons, hk]
      rw [h2]
      simp only [dictLookup, if_neg hk]
      exact dictLookup_dictRemove_self k rest

theorem lookup_foldl_swapInsert_mem (i : Nat) (v : String) :
    ∀ (ps : List (String × Nat)) (m : List (Nat × String)),
      dictLookup (List.foldl (fun m p => dictInsert m p.2 p.1) m ps) i = some v →
      (v, i) ∈ ps ∨ dictLookup m i = some v
  | [], m, h => Or.inr h
  | (id2, idx2) :: rest, m, h => by
    rcases lookup_foldl_swapInsert_mem i v rest (dictInsert m idx2 id2) h with h2 | h2
    · exact Or.inl (List.mem_cons_of_mem _ h2)
    · by_cases hi : idx2 = i
      · subst hi
        rw [dictLookup_dictInsert_self] at h2
        cases h2
        exact Or.inl (List.mem_cons_self _ _)
      · rw [dictLookup_dictInsert_ne _ _ _ hi] at h2
        exact Or.inr h2

theorem lookup_isSome_foldl_swapInsert (i : Nat) :
    ∀ (ps : List (String × Nat)) (m : List (Nat × String)),
      (dictLookup m i).isSome →
      (dictLookup (List.foldl (fun m p => dictInsert m p.2 p.1) m ps) i).isSome
  | [], m, h => h
  | (id2, idx2) :: rest, m, h => by
    refine lookup_isSome_foldl_swapInsert i rest (dictInsert m idx2 id2) ?_
    by_cases hi : idx2 = i
    · subst hi
      rw [dictLookup_dictInsert_self]
      rfl
    · rwa [dictLookup_dictInsert_ne _ _ _ hi]

theorem lookup_foldl_swapInsert_of_mem (i : Nat) (v : String) :
    ∀ (ps : List (String × Nat)) (m : List (Nat × String)),
      (v, i) ∈ ps →
      (dictLookup (List.foldl (fun m p => dictInsert m p.2 p.1) m ps) i).isSome
  | [], m, h => by cases h
  | (id2, idx2) :: rest, m, h => by
    rcases List.mem_cons.mp h with h2 | h2
    · cases h2
      exact lookup_isSome_foldl_swapInsert i rest _ (by rw [dictLookup_dictInsert_self]; rfl)
    · exact lookup_foldl_swapInsert_of_mem i v rest _ h2

/-! ## Sorting lemmas -/

theorem insertLe_perm {α : Type} (le : α → α → Bool) (x : α) :
    ∀ l : List α, (insertLe le x l).Perm (x :: l)
  | [] => List.Perm.refl _
  | y :: ys => by
    unfold insertLe
    by_cases h : le x y
    · simp [h]
    · simp only [h, if_false, Bool.false_eq_true]
      exact ((insertLe_perm le x ys).cons y).trans (List.Perm.swap x y ys)

theorem sortLe_perm {α : Type} (le : α → α → Bool) :
    ∀ l : List α, (sortLe le l).Perm l
  | [] => List.Perm.refl _
  | x :: xs => (insertLe_perm le x (sortLe le xs)).trans ((sortLe_perm le xs).cons x)

theorem mem_sortLe {α : Type} (le : α → α → Bool) (l : List α) (a : α)
    (h : a ∈ sortLe le l) : a ∈ l :=
  (sortLe_perm le l).mem_iff.mp h

/-! ## filterMap length lemmas -/

theorem length_filterMap_le2 {α β : Type} (f : α → Option β) :
    ∀ l : List α, (l.filterMap f).length ≤ l.length
  | [] => Nat.le_refl 0
  | x :: xs => by
    rw [List.filterMap_cons]
    cases f x with
    | none => exact Nat.le_succ_of_le (length_filterMap_le2 f xs)
    | some b => simpa using length_filterMap_le2 f xs

theorem length_filterMap_all_some {α β : Type} (f : α → Option β) :
    ∀ l : List α, (∀ x ∈ l, (f x).isSome) → (l.filterMap f).length = l.length
  | [], _ => rfl
  | x :: xs, h => by
    rw [List.filterMap_cons]
    rcases hfx : f x with _ | b
    · exact absurd (h x (by simp)) (by simp [hfx])
    · simpa using length_filterMap_all_some f xs (fun y hy => h y (by simp [hy]))

/-! ## Claim C1 -/

/-- Claim C1: refuted on the code (the specification itself flags the
cause as a source defect). After adding vector [1, 2] with metadata
[(k, x)] to a fresh dimension-2 store, get_vector on the returned id
succeeds but yields a record with no vector at all — FAISS cannot be read
back and the source returns only the id and the metadata — and the
metadata is not equal to the one supplied: a timestamp key has been
injected. The claimed round trip (vector approximately [1, 2], metadata
equal to [(k, x)]) therefore fails. -/
theorem roundtrip_returns_no_vector :
    (((faissNew 2).add_vectors [[1, 2]] [[("k", "x")]] ["id1"] "T").2 = .ok ["id1"]) ∧
    storeC1.get_vector "id1" =
      some { id := "id1", vector := none, metadata := [("k", "x"), ("timestamp", "T")] } ∧
    ([("k", "x"), ("timestamp", "T")] : MDict) ≠ [("k", "x")] := by decide

/-! ## Claim C2 -/

/-- Claim C2: refuted on the code (the specification itself flags this as
the source defect implementers must fix). Two successful add_vectors
calls that differ only in the raw vector ([1, 2] versus [7, 9]) leave
bit-for-bit identical persisted snapshots: metadata.json and
id_map.pickle hold only the id-to-metadata and id-to-position dicts, and
no raw vector is ever written, so the persisted state cannot determine
the stored vectors and does not suffice to rebuild the index. -/
theorem persisted_snapshot_lacks_raw_vectors :
    (((faissNew 2).add_vectors [[1, 2]] [[("k", "x")]] ["id1"] "T").2 = .ok ["id1"]) ∧
    (((faissNew 2).add_vectors [[7, 9]] [[("k", "x")]] ["id1"] "T").2 = .ok ["id1"]) ∧
    storeC1.persistedState = storeC2b.persistedState ∧
    ([[1, 2]] : List (List Int)) ≠ [[7, 9]] := by decide

/-! ## Claim C5 -/

/-- Claim C5: confirmed. An add_vectors call whose vector and metadata
lists have matching lengths but which contains a vector of the wrong
dimension fails with the dimension-mismatch error, and the store — index
rows, id dict, metadata dict and both persisted snapshot files — is
returned exactly as it was: the failure is raised by np.vstack or
index.add before any state is touched. -/
theorem add_wrong_dimension_fails_unchanged (s : FaissVectorStore)
    (vectors : List (List Int)) (metadata : List MDict) (vector_ids : List String)
    (now : String) (hlen : vectors.length = metadata.length)
    (hbad : ∃ v ∈ vectors, v.length ≠ s.dimension) :
    s.add_vectors vectors metadata vector_ids now = (s, .error .dimensionMismatch) := by
  obtain ⟨v, hv, hvd⟩ := hbad
  have hne : vectors ≠ [] := by rintro rfl; cases hv
  have hisEmpty : vectors.isEmpty = false := by simpa [List.isEmpty_iff] using hne
  have hex : ∃ x ∈ vectors, ¬x.length = s.dimension := ⟨v, hv, hvd⟩
  unfold FaissVectorStore.add_vectors
  simp [hlen, hisEmpty, hex]

/-- Witness for C5 at a concrete input: a 1-dimensional vector offered to
a 2-dimensional store. -/
theorem add_wrong_dimension_witness :
    (faissNew 2).add_vectors [[1]] [[]] ["a"] "T" = (faissNew 2, .error .dimensionMismatch) :=
  add_wrong_dimension_fails_unchanged (faissNew 2) [[1]] [[]] ["a"] "T" rfl
    ⟨[1], by decide, by decide⟩

/-! ## Claim C9 -/

/-- Claim C9: confirmed. For every prompt, when the provider call made by
generate_response fails (the oracle returns an error for exactly the
payload the method posts), both the OpenAI-backed and the local-backend
implementations return the degraded answer string built from the failure
reason instead of propagating the exception; the method always returns a
string, so the caller retains the already-retrieved context. -/
theorem generation_failure_returns_degraded_answer (prompt e : String)
    (apiO : String → Except String String) (apiL : String → Except String MDict)
    (pyStr : MDict → String)
    (hO : apiO (openaiPayload prompt) = .error e)
    (hL : apiL (localPayload prompt) = .error e) :
    OpenAIModel.generate_response prompt apiO = degradedHead ++ e ∧
    LocalAIModel.generate_response prompt apiL pyStr = degradedHead ++ e := by
  unfold OpenAIModel.generate_response LocalAIModel.generate_response
  rw [hO, hL]
  exact ⟨rfl, rfl⟩

/-- Witness for C9: a provider that always fails with reason boom. -/
theorem generation_failure_witness :
    OpenAIModel.generate_response "q" (fun _ => .error "boom") = degradedHead ++ "boom" ∧
    LocalAIModel.generate_response "q" (fun _ => .error "boom") (fun _ => "") =
      degradedHead ++ "boom" :=
  generation_failure_returns_degraded_answer "q" "boom" _ _ _ rfl rfl

/-! ## Claim C4 -/

theorem delete_true_characterisation (s : FaissVectorStore) (vid : String)
    (h : (s.delete_vector vid).2 = true) :
    (s.delete_vector vid).1 =
      { s with metadata := dictRemove s.metadata vid,
               id_to_index := dictRemove s.id_to_index vid,
               persistedMetadata := dictRemove s.metadata vid,
               persistedIdMap := dictRemove s.id_to_index vid } := by
  unfold FaissVectorStore.delete_vector at h ⊢
  by_cases hc : dictContains s.id_to_index vid
  · simp [hc]
  · simp [hc] at h

theorem search_result_id_live (s : FaissVectorStore) (q : List Int) (k : Nat)
    (rs : List SearchResult) (hok : s.search q k = .ok rs) (r : SearchResult)
    (hr : r ∈ rs) : ∃ p ∈ s.id_to_index, p.1 = r.id := by
  unfold FaissVectorStore.search at hok
  by_cases hd : q.length ≠ s.dimension
  · rw [if_pos hd] at hok
    cases hok
  · rw [if_neg hd] at hok
    simp only [Except.ok.injEq] at hok
    subst hok
    obtain ⟨idx, _, hf⟩ := List.mem_filterMap.mp hr
    split at hf
    · split at hf
      case _ vid2 heq =>
        split at hf
        · cases hf
        · simp only [Option.some.injEq] at hf
          subst hf
          have hmem := lookup_foldl_swapInsert_mem idx vid2 s.id_to_index [] heq
          rcases hmem with hmem | hmem
          · exact ⟨(vid2, idx), hmem, rfl⟩
          · cases hmem
      · cases hf
    · cases hf

/-- Claim C4: confirmed. On both backends, immediately after a successful
delete of an id, get_vector of that id is absent and no search result can
carry that id. For the FAISS backend the id is removed from the id dict,
so its physical row no longer maps back to any id and is skipped by
search; for the Neo4j backend the node is removed, and queryNodes only
reports existing nodes. -/
theorem tombstone_exclusion :
    (∀ (s : FaissVectorStore) (vid : String) (q : List Int) (k : Nat),
      (s.delete_vector vid).2 = true →
        (s.delete_vector vid).1.get_vector vid = none ∧
        ∀ rs, (s.delete_vector vid).1.search q k = .ok rs → ∀ r ∈ rs, r.id ≠ vid) ∧
    (∀ (db : Neo4jVectorStore) (vid : String) (sim : List Int → ℚ) (k : Nat),
      (db.delete_vector vid).2 = true →
        (db.delete_vector vid).1.get_vector vid = none ∧
        ∀ r ∈ (db.delete_vector vid).1.search sim k, r.id ≠ vid) := by
  constructor
  · intro s vid q k h
    rw [delete_true_characterisation s vid h]
    constructor
    · unfold FaissVectorStore.get_vector dictContains
      simp [dictLookup_dictRemove_self]
    · intro rs hok r hr
      obtain ⟨p, hp, hpid⟩ := search_result_id_live _ q k rs hok r hr
      have h2 := mem_dictRemove p vid s.id_to_index hp
      rw [← hpid]
      exact h2.2
  · intro db vid sim k h
    have hdel : (db.delete_vector vid).1 = { nodes := dictRemove db.nodes vid } := by
      unfold Neo4jVectorStore.delete_vector at h ⊢
      by_cases hc : dictContains db.nodes vid
      · simp [hc]
      · simp [hc] at h
    rw [hdel]
    constructor
    · unfold Neo4jVectorStore.get_vector
      rw [dictLookup_dictRemove_self]
    · intro r hr
      unfold Neo4jVectorStore.search at hr
      obtain ⟨p, hp, hfp⟩ := List.mem_map.mp hr
      have hp2 : p ∈ sortLe (neo4jNodeLe sim) (dictRemove db.nodes vid) :=
        List.take_subset _ _ hp
      have hp3 := mem_sortLe _ _ _ hp2
      have h4 := mem_dictRemove p vid db.nodes hp3
      rw [← hfp]
      exact h4.2

/-- Witness for C4: deleting id a from concrete FAISS and Neo4j stores.
get_vector is then absent on both backends. -/
theorem tombstone_exclusion_witness :
    (storeABC.delete_vector "a").1.get_vector "a" = none ∧
    (neoAB.delete_vector "a").1.get_vector "a" = none :=
  ⟨(tombstone_exclusion.1 storeABC "a" [0] 5 (by decide)).1,
   (tombstone_exclusion.2 neoAB "a" (fun _ => 0) 5 (by decide)).1⟩

/-! ## Claim C6 -/

/-- Counterexample to claim C6 as stated. In storeTomb three vectors were
added and the two whose rows rank nearest to the query were deleted, so
one live entry remains. Searching with top_k 2 — more than the live
count — returns no results at all: the tombstoned rows still occupy the
top_k candidate slots and are filtered away afterwards. The claim demands
exactly one result here. -/
theorem search_fewer_than_live_counterexample :
    storeTomb.liveCount = 1 ∧ (1 : Nat) < 2 ∧
    storeTomb.search [0] 2 = .ok [] := by decide

theorem search_ok_value (s : FaissVectorStore) (q : List Int) (k : Nat)
    (hq : q.length = s.dimension) :
    s.search q k = .ok ((faissTopkIndices s.indexVecs q k).filterMap (fun idx =>
      if idx < s.indexVecs.length then
        match dictLookup (List.foldl (fun m p => dictInsert m p.2 p.1)
            ([] : List (Nat × String)) s.id_to_index) idx with
        | some vid =>
          if vid = "" then none
          else some { id := vid, score := Rat.divInt 1 (1 + sqDist q (s.indexVecs.getD idx [])),
                      metadata := (dictLookup s.metadata vid).getD [] }
        | none => none
      else none)) := by
  unfold FaissVectorStore.search
  rw [if_neg (by simp [hq])]

theorem liveCount_eq_ntotal (s : FaissVectorStore) (hwf : WellFormedIds s)
    (hnt : NoTombstones s) : s.liveCount = s.ntotal := by
  obtain ⟨hnodup, _, hbound, hinj⟩ := hwf
  have hpair : s.id_to_index.Pairwise (fun p q2 => p.2 ≠ q2.2) := by
    have h1 : s.id_to_index.Pairwise (fun p q2 => p.1 ≠ q2.1) :=
      List.pairwise_map.mp hnodup
    refine h1.imp_of_mem ?_
    intro p q2 hp hq2 hne hposeq
    exact hne (congrArg Prod.fst (hinj p hp q2 hq2 hposeq))
  have hnodup2 : (s.id_to_index.map Prod.snd).Nodup := List.pairwise_map.mpr hpair
  have hfin : (s.id_to_index.map Prod.snd).toFinset = Finset.range s.ntotal := by
    ext i
    simp only [List.mem_toFinset, List.mem_map, Finset.mem_range]
    constructor
    · rintro ⟨p, hp, rfl⟩
      exact hbound p hp
    · intro hi
      obtain ⟨p, hp, hpi⟩ := hnt i hi
      exact ⟨p, hp, hpi⟩
  calc s.liveCount = (s.id_to_index.map Prod.snd).length := (List.length_map _ _).symm
    _ = (s.id_to_index.map Prod.snd).toFinset.card :=
        (List.toFinset_card_of_nodup hnodup2).symm
    _ = (Finset.range s.ntotal).card := by rw [hfin]
    _ = s.ntotal := Finset.card_range _

/-- Claim C6, amended: for a query of the store dimension, search never
errors and returns at most top_k results; and provided the store holds no
tombstones (every physical row is owned by a live id) and the live ids
are well formed, fewer than top_k live entries means exactly that many
results. The unamended claim — exactly the live count even with
tombstones — is refuted by search_fewer_than_live_counterexample: a
tombstoned row consumes a candidate slot and is then filtered out. -/
theorem search_topk_amended (s : FaissVectorStore) (q : List Int) (k : Nat)
    (hq : q.length = s.dimension) :
    (∃ rs, s.search q k = .ok rs) ∧
    (∀ rs, s.search q k = .ok rs → rs.length ≤ k ∧
      (WellFormedIds s → NoTombstones s → s.liveCount < k → rs.length = s.liveCount)) := by
  have heq := search_ok_value s q k hq
  refine ⟨⟨_, heq⟩, ?_⟩
  intro rs hok
  rw [heq] at hok
  injection hok with hok
  subst hok
  constructor
  · exact le_trans (length_filterMap_le2 _ _) (by simp [faissTopkIndices])
  · intro hwf hnt hlt
    have hlc := liveCount_eq_ntotal s hwf hnt
    have hkn : s.ntotal ≤ k := by omega
    have hsortlen : (sortLe (faissKeyLe s.indexVecs q) (List.range s.indexVecs.length)).length
        = s.ntotal := by
      rw [(sortLe_perm _ _).length_eq, List.length_range]
      rfl
    have htake : faissTopkIndices s.indexVecs q k =
        sortLe (faissKeyLe s.indexVecs q) (List.range s.indexVecs.length) := by
      unfold faissTopkIndices
      exact List.take_of_length_le (by rw [hsortlen]; exact hkn)
    rw [htake, length_filterMap_all_some, hsortlen, hlc]
    intro idx hidx
    have hlt2 : idx < s.indexVecs.length := List.mem_range.mp (mem_sortLe _ _ _ hidx)
    obtain ⟨p, hp, hpi⟩ := hnt idx hlt2
    have hp2 : (p.1, idx) ∈ s.id_to_index := by
      have hpeta : (p.1, idx) = p := by rw [← hpi]
      rw [hpeta]
      exact hp
    have hsome := lookup_foldl_swapInsert_of_mem idx p.1 s.id_to_index [] hp2
    rcases hlook : dictLookup (List.foldl (fun m p => dictInsert m p.2 p.1)
        ([] : List (Nat × String)) s.id_to_index) idx with _ | vid2
    · rw [hlook] at hsome
      cases hsome
    · rcases lookup_foldl_swapInsert_mem idx vid2 s.id_to_index [] hlook with hmem2 | hmem2
      · have hne2 : vid2 ≠ "" := hwf.2.1 _ hmem2
        simp only [if_pos hlt2, hlook, if_neg hne2]
        rfl
      · cases hmem2

/-- Witness for C6 amended: storeLive2 has two live entries, no
tombstones, and a top_k 3 search for [7] returns exactly its two
entries. -/
theorem search_topk_amended_witness :
    rsLive2.length ≤ 3 ∧ rsLive2.length = storeLive2.liveCount :=
  ⟨(((search_topk_amended storeLive2 [7] 3 (by decide)).2 rsLive2 (by decide))).1,
   (((search_topk_amended storeLive2 [7] 3 (by decide)).2 rsLive2 (by decide))).2
     (by decide) (by decide) (by decide)⟩

/-! ## Claim C8 -/

theorem goodMap_mono (d : List (String × Nat)) (n m : Nat) (h : GoodMap d n)
    (hnm : n ≤ m) : GoodMap d m :=
  ⟨h.1, fun p hp => lt_of_lt_of_le (h.2.1 p hp) hnm, h.2.2⟩

theorem keys_nodup_dictInsert {β : Type} (d : List (String × β)) (k : String) (v : β)
    (h : (d.map Prod.fst).Nodup) : ((dictInsert d k v).map Prod.fst).Nodup := by
  rw [keys_dictInsert]
  by_cases hk : k ∈ d.map Prod.fst
  · simpa [hk] using h
  · simp only [hk, if_false]
    rw [List.nodup_append]
    refine ⟨h, List.nodup_singleton k, ?_⟩
    intro a ha hak
    rw [List.mem_singleton] at hak
    exact hk (hak ▸ ha)

theorem goodMap_dictInsert (d : List (String × Nat)) (bound pos : Nat) (id : String)
    (hd : GoodMap d bound) (hpos : bound ≤ pos) : GoodMap (dictInsert d id pos) (pos + 1) := by
  refine ⟨keys_nodup_dictInsert d id pos hd.1, ?_, ?_⟩
  · intro p hp
    rcases mem_dictInsert p id pos d hp with h1 | h1
    · rw [h1]
      exact Nat.lt_succ_self pos
    · exact lt_of_lt_of_le (hd.2.1 p h1) (le_trans hpos (Nat.le_succ pos))
  · intro p hp q2 hq2 hpq
    rcases mem_dictInsert p id pos d hp with h1 | h1 <;>
      rcases mem_dictInsert q2 id pos d hq2 with h2 | h2
    · rw [h1, h2]
    · exfalso
      have hb := hd.2.1 q2 h2
      rw [h1] at hpq
      simp only at hpq
      omega
    · exfalso
      have hb := hd.2.1 p h1
      rw [h2] at hpq
      simp only at hpq
      omega
    · exact hd.2.2 p h1 q2 h2 hpq

theorem goodMap_addFold : ∀ (ids : List String) (n len : Nat) (d : List (String × Nat)),
    GoodMap d n →
    GoodMap (List.foldl (fun m p => dictInsert m p.1 p.2) d
      (List.zip ids (List.range' n len))) (n + len)
  | [], n, len, d, hd => by
    simpa using goodMap_mono d n (n + len) hd (Nat.le_add_right n len)
  | id :: rest, n, len, d, hd => by
    cases len with
    | zero => simpa using hd
    | succ l =>
      rw [List.range'_succ, List.zip_cons_cons, List.foldl_cons]
      have h2 : GoodMap (dictInsert d id n) (n + 1) :=
        goodMap_dictInsert d n n id hd (Nat.le_refl n)
      have h3 := goodMap_addFold rest (n + 1) l (dictInsert d id n) h2
      have harith : n + 1 + l = n + (l + 1) := by omega
      rw [harith] at h3
      exact h3

theorem goodMap_dictRemove (d : List (String × Nat)) (n : Nat) (k : String)
    (h : GoodMap d n) : GoodMap (dictRemove d k) n := by
  refine ⟨?_, ?_, ?_⟩
  · exact ((List.filter_sublist d).map Prod.fst).nodup h.1
  · intro p hp
    exact h.2.1 p (mem_dictRemove p k d hp).1
  · intro p hp q2 hq2 hpq
    exact h.2.2 p (mem_dictRemove p k d hp).1 q2 (mem_dictRemove q2 k d hq2).1 hpq

theorem goodMap_applyOp (s : FaissVectorStore) (op : StoreOp)
    (h : GoodMap s.id_to_index s.ntotal) :
    GoodMap (applyOp s op).id_to_index (applyOp s op).ntotal := by
  cases op with
  | add vectors metadata ids now =>
    show GoodMap (s.add_vectors vectors metadata ids now).1.id_to_index
      (s.add_vectors vectors metadata ids now).1.ntotal
    unfold FaissVectorStore.add_vectors
    split
    · exact h
    · split
      · exact h
      · split
        · exact h
        · simpa [FaissVectorStore.ntotal] using
            goodMap_addFold ids s.indexVecs.length vectors.length s.id_to_index h
  | del vid =>
    show GoodMap (s.delete_vector vid).1.id_to_index (s.delete_vector vid).1.ntotal
    unfold FaissVectorStore.delete_vector
    split
    · simpa [FaissVectorStore.ntotal] using goodMap_dictRemove s.id_to_index s.ntotal vid h
    · exact h

theorem goodMap_runOps : ∀ (ops : List StoreOp) (s : FaissVectorStore),
    GoodMap s.id_to_index s.ntotal →
    GoodMap (runOps s ops).id_to_index (runOps s ops).ntotal
  | [], _, h => h
  | op :: rest, s, h => goodMap_runOps rest (applyOp s op) (goodMap_applyOp s op h)

theorem entries_eq_of_keys_nodup {κ β : Type} :
    ∀ (l : List (κ × β)), (l.map Prod.fst).Nodup →
      ∀ p q : κ × β, p ∈ l → q ∈ l → p.1 = q.1 → p = q
  | [], _, p, q, hp, _, _ => by cases hp
  | a :: rest, h, p, q, hp, hq, hk => by
    rw [List.map_cons] at h
    have h2 := List.nodup_cons.mp h
    rcases List.mem_cons.mp hp with hp1 | hp1 <;> rcases List.mem_cons.mp hq with hq1 | hq1
    · rw [hp1, hq1]
    · exfalso
      have hmem : q.1 ∈ rest.map Prod.fst := List.mem_map.mpr ⟨q, hq1, rfl⟩
      have ha1 : a.1 = q.1 := by rw [← hp1]; exact hk
      rw [← ha1] at hmem
      exact h2.1 hmem
    · exfalso
      have hmem : p.1 ∈ rest.map Prod.fst := List.mem_map.mpr ⟨p, hp1, rfl⟩
      have ha1 : a.1 = p.1 := by rw [← hq1]; exact hk.symm
      rw [← ha1] at hmem
      exact h2.1 hmem
    · exact entries_eq_of_keys_nodup rest h2.2 p q hp1 hq1 hk

/-- Claim C8: confirmed. Starting from a fresh store, after any sequence
of add_vectors and delete_vector calls the id-to-index dict is injective
in both directions: two live bindings agreeing on the id or on the index
position are the same binding. Adds assign the batch fresh positions at
and above the old ntotal (which only grows, deletes being tombstones), so
a position is never reused even across deletions, and dict assignment
keeps keys distinct. -/
theorem position_uniqueness (dimension : Nat) (ops : List StoreOp) (p q : String × Nat)
    (hp : p ∈ (runOps (faissNew dimension) ops).id_to_index)
    (hq : q ∈ (runOps (faissNew dimension) ops).id_to_index)
    (h : p.1 = q.1 ∨ p.2 = q.2) : p = q := by
  have hg := goodMap_runOps ops (faissNew dimension) (by simp [GoodMap, faissNew])
  rcases h with h | h
  · exact entries_eq_of_keys_nodup _ hg.1 p q hp hq h
  · exact hg.2.2 p hp q hq h

/-- Witness for C8: after two adds and a delete, the binding of id b. -/
theorem position_uniqueness_witness : (("b", 1) : String × Nat) = ("b", 1) :=
  position_uniqueness 1 [.add [[1]] [[]] ["a"] "T", .add [[2]] [[]] ["b"] "T", .del "a"]
    ("b", 1) ("b", 1) (by decide) (by decide) (Or.inl rfl)

/-! ## Claim C10 -/

theorem set_append_last {α : Type} (d d2 : α) :
    ∀ h : List α, (h ++ [d]).set h.length d2 = h ++ [d2]
  | [] => rfl
  | a :: rest => by
    simp only [List.cons_append, List.length_cons, List.set_cons_succ]
    rw [set_append_last d d2 rest]

theorem getD_append_lt {α : Type} (x : α) (d2 : List α) :
    ∀ (h : List α) (r0 : Nat), r0 < h.length → (h ++ d2).getD r0 x = h.getD r0 x
  | [], r0, hr => absurd hr (by simp)
  | a :: rest, 0, _ => rfl
  | a :: rest, r0 + 1, hr => by
    simp only [List.cons_append, List.getD_cons_succ]
    exact getD_append_lt x d2 rest r0 (by simpa using hr)

theorem heapRead_step (h : Heap) (c v : MDict) (r0 : Nat) (hr : r0 < h.length) :
    heapRead (heapWrite (h ++ [c]) h.length v) r0 = heapRead h r0 := by
  unfold heapRead heapWrite
  rw [set_append_last]
  exact getD_append_lt [] [v] h r0 hr

theorem faiss_addLoopHeap_frame :
    ∀ (items : List (String × Nat × Nat)) (h : Heap) (idMap mdMap : List (String × Nat))
      (now : String) (r0 : Nat), r0 < h.length →
      heapRead (FaissVectorStore.addLoopHeap h idMap mdMap items now).1 r0 = heapRead h r0
  | [], _, _, _, _, _, _ => rfl
  | (vid, idx, r) :: rest, h, idMap, mdMap, now, r0, hr => by
    simp only [FaissVectorStore.addLoopHeap, heapAlloc]
    rw [faiss_addLoopHeap_frame rest _ _ _ now r0
      (by unfold heapWrite; simp only [List.length_set, List.length_append]; omega)]
    exact heapRead_step h _ _ r0 hr

theorem neo4j_addLoopHeap_frame :
    ∀ (items : List (String × List Int × Nat)) (h : Heap) (db : Neo4jVectorStore)
      (now : String) (r0 : Nat), r0 < h.length →
      heapRead (Neo4jVectorStore.addLoopHeap h db items now).1 r0 = heapRead h r0
  | [], _, _, _, _, _ => rfl
  | (vid, vec, r) :: rest, h, db, now, r0, hr => by
    simp only [Neo4jVectorStore.addLoopHeap, heapAlloc]
    rw [neo4j_addLoopHeap_frame rest _ _ now r0
      (by unfold heapWrite; simp only [List.length_set, List.length_append]; omega)]
    exact heapRead_step h _ _ r0 hr

/-- Claim C10: confirmed. The id-assignment loops of
FaissVectorStore.add_vectors and Neo4jVectorStore.add_vectors copy each
caller-owned metadata dict into a freshly allocated object and write the
timestamp key into the fresh object only, so after the loop every
pre-existing heap object — in particular every dict of the caller
argument — reads exactly as before the call. -/
theorem add_vectors_does_not_mutate_caller_metadata (h : Heap) (now : String)
    (r0 : Nat) (hr : r0 < h.length) :
    (∀ (idMap mdMap : List (String × Nat)) (items : List (String × Nat × Nat)),
      heapRead (FaissVectorStore.addLoopHeap h idMap mdMap items now).1 r0 = heapRead h r0) ∧
    (∀ (db : Neo4jVectorStore) (items : List (String × List Int × Nat)),
      heapRead (Neo4jVectorStore.addLoopHeap h db items now).1 r0 = heapRead h r0) :=
  ⟨fun idMap mdMap items => faiss_addLoopHeap_frame items h idMap mdMap now r0 hr,
   fun db items => neo4j_addLoopHeap_frame items h db now r0 hr⟩

/-- Witness for C10: a one-object heap and a one-entry batch on each
backend; the caller object at reference 0 is unchanged. -/
theorem add_vectors_no_mutation_witness :
    heapRead (FaissVectorStore.addLoopHeap [[("k", "x")]] [] [] [("id1", 0, 0)] "T").1 0 =
      heapRead [[("k", "x")]] 0 ∧
    heapRead (Neo4jVectorStore.addLoopHeap [[("k", "x")]] ⟨[]⟩ [("id1", [1], 0)] "T").1 0 =
      heapRead [[("k", "x")]] 0 :=
  ⟨(add_vectors_does_not_mutate_caller_metadata [[("k", "x")]] "T" 0 (by decide)).1 [] []
      [("id1", 0, 0)],
   (add_vectors_does_not_mutate_caller_metadata [[("k", "x")]] "T" 0 (by decide)).2 ⟨[]⟩
      [("id1", [1], 0)]⟩
